import Mathlib

/-!
Verification of the secure-channel core of `challenge2/main.go`
(`SecureReader` / `SecureWriter`, the key-exchange handshake in `Dial` and
`Serve`, and the one-shot echo service).

Modelling conventions:
* Go byte slices are `List Nat` (each element a byte value).
* Effectful collaborators (the underlying transport reader/writer, the
  random source) are passed in explicitly: the outcome of the single
  underlying `Read` is given as the delivered bytes plus an optional error,
  the underlying `Write` is a function from the written bytes to the
  `(n, err)` pair it returns, and `genNonce` / `box.GenerateKey` outcomes
  are `Except` values.  Each Go function issues its underlying operations
  exactly once, so one outcome value per operation captures the call.
* A Go runtime panic (out-of-range slice expression) is the explicit
  `crash` outcome.
* `golang.org/x/crypto/nacl/box` is an external library, not part of this
  repository; it is modelled executably below, keeping its documented
  interface: `Seal` appends `Overhead = 16` tag bytes to the plaintext,
  `Open` inverts `Seal` exactly when the key pairs match and fails
  otherwise.  The wrapper code under verification only depends on this
  interface (lengths and success/failure), not on the cipher internals.
-/

/-- Go errors: `io.EOF` is distinguished, every other error is carried as
its message string (the code produces errors via `fmt.Errorf`). -/
inductive GoError where
  | eof : GoError
  | other : String → GoError
deriving DecidableEq

/-- Constant `KeySize = 32` from `main.go`. -/
def KeySize : Nat := 32

/-- Constant `NonceSize = 24` from `main.go`. -/
def NonceSize : Nat := 24

namespace box

/-- Constant `box.Overhead`: the fixed authentication-tag overhead (16 bytes). -/
def Overhead : Nat := 16

/-- A public key matches a private key when it is the one derived from it.
In this executable stand-in for Curve25519 key derivation, the public key
is the reversed private key (any sum-preserving involution works for the
shared-key symmetry below). -/
def Matches (priv pub : List Nat) : Prop := pub = priv.reverse

instance (priv pub : List Nat) : Decidable (Matches priv pub) := by
  unfold Matches; infer_instance

/-- Stand-in for the Diffie-Hellman shared secret of `pub` and `priv`.
Symmetric across a matching pair: `sharedOf pubB privA = sharedOf pubA
privB` whenever each public key is the reverse of its private key. -/
def sharedOf (pub priv : List Nat) : Nat := pub.sum + priv.sum

/-- Stand-in authentication-tag byte for a message under a shared key and
nonce. -/
def tagByte (pub priv nonce msg : List Nat) : Nat :=
  (sharedOf pub priv + nonce.sum + msg.sum + msg.length) % 256

/-- Model of `box.Seal(nil, msg, nonce, pub, priv)` (without the output
prefix argument): the ciphertext is `Overhead` tag bytes followed by the
message, so its length is `msg.length + Overhead` as the library
documents. -/
def Seal (msg nonce pub priv : List Nat) : List Nat :=
  List.replicate Overhead (tagByte pub priv nonce msg) ++ msg

/-- Model of `box.Open(nil, c, nonce, pub, priv)`: succeeds exactly when
the ciphertext is long enough and its tag verifies under the shared key,
returning the remaining bytes as plaintext. -/
def Open (c nonce pub priv : List Nat) : Option (List Nat) :=
  if Overhead ≤ c.length ∧
      c.take Overhead =
        List.replicate Overhead (tagByte pub priv nonce (c.drop Overhead))
  then some (c.drop Overhead) else none

theorem Open_length {c nonce pub priv m : List Nat}
    (h : Open c nonce pub priv = some m) :
    m.length + Overhead = c.length := by
  unfold Open at h
  split at h
  · rename_i hc
    cases h
    simp [List.length_drop]
    omega
  · cases h

theorem seal_length (msg nonce pub priv : List Nat) :
    (Seal msg nonce pub priv).length = msg.length + Overhead := by
  simp [Seal]; omega

theorem Open_Seal {privA pubA privB pubB : List Nat}
    (hA : Matches privA pubA) (hB : Matches privB pubB)
    (msg nonce : List Nat) :
    Open (Seal msg nonce pubB privA) nonce pubA privB = some msg := by
  unfold Open Seal
  have hlen : (List.replicate Overhead
      (tagByte pubB privA nonce msg)).length = Overhead := by simp
  rw [List.take_left' hlen, List.drop_left' hlen]
  have hsym : tagByte pubB privA nonce msg = tagByte pubA privB nonce msg := by
    unfold tagByte sharedOf
    rw [hA, hB]
    simp [List.sum_reverse]
    ring_nf
  rw [hsym]
  simp [seal_length]

end box

/-- Model of Go's builtin `copy(dst, src)` result: the first
`min dst.length src.length` elements are replaced by those of `src`, the
rest of `dst` is kept.  The resulting list has `dst.length` elements. -/
def goCopy (dst src : List Nat) : List Nat :=
  src.take dst.length ++ dst.drop src.length

theorem goCopy_length (dst src : List Nat) :
    (goCopy dst src).length = dst.length := by
  simp [goCopy]
  omega

theorem goCopy_take {dst src : List Nat} (h : src.length ≤ dst.length) :
    (goCopy dst src).take src.length = src := by
  unfold goCopy
  rw [List.take_of_length_le h]
  rw [List.take_left' rfl]

/-- Result of one `sR.Read` call: `ok count buf` returns `(count, nil)`
with the caller's buffer now holding `buf`; `fail e buf` returns `(0, e)`
with the buffer holding `buf`; `crash` is a Go runtime panic. -/
inductive ReadOutcome where
  | ok : Nat → List Nat → ReadOutcome
  | fail : GoError → List Nat → ReadOutcome
  | crash : String → ReadOutcome
deriving DecidableEq

/-- The byte count an outcome reports to the caller (a crash reports
nothing; we count it as 0). -/
def ReadOutcome.count : ReadOutcome → Nat
  | .ok n _ => n
  | .fail _ _ => 0
  | .crash _ => 0

/-- The caller-visible buffer after the call. -/
def ReadOutcome.buf : ReadOutcome → List Nat
  | .ok _ b => b
  | .fail _ b => b
  | .crash _ => []

namespace sR

/-- Length of the staging buffer `bs := make([]byte, len(p)+NonceSize+box.Overhead)`. -/
def stagingSize (p : List Nat) : Nat := p.length + NonceSize + box.Overhead

/-- Trace of one `sR.Read` call: the size of the single underlying read
request, the nonce and ciphertext extracted from the staged bytes, and the
outcome. -/
structure ReadTrace where
  requested : Nat
  nonce : List Nat
  cipher : List Nat
  outcome : ReadOutcome
deriving DecidableEq

/-- Model of `(*sR).Read(p)` from `main.go`.  `p` is the caller's buffer
(with its current contents), `data` the bytes the single underlying
`sr.r.Read(bs)` delivered into `bs` (so its return count is
`data.length`), `rerr` its returned error.  Mirrors the source line by
line: a non-`EOF` error returns `(0, err)`; the nonce is copied from
`bs[:NonceSize]`; `bs[NonceSize:n]` panics when `n < NonceSize`;
`box.Open` failure returns `(0, "failed decrypting message")`; on success
`copy(p, m)` runs and `(len(m), nil)` is returned. -/
def ReadT (priv peerPub p data : List Nat) (rerr : Option GoError) :
    ReadTrace :=
  let bs := data ++ List.replicate (stagingSize p - data.length) 0
  let n := data.length
  let nonce := bs.take NonceSize
  if rerr ≠ none ∧ rerr ≠ some GoError.eof then
    ⟨stagingSize p, nonce, [], .fail (rerr.getD GoError.eof) p⟩
  else if n < NonceSize then
    ⟨stagingSize p, nonce, [], .crash "slice bounds out of range"⟩
  else
    let cipher := (bs.drop NonceSize).take (n - NonceSize)
    match box.Open cipher nonce peerPub priv with
    | none =>
        ⟨stagingSize p, nonce, cipher,
          .fail (GoError.other "failed decrypting message") p⟩
    | some m =>
        ⟨stagingSize p, nonce, cipher, .ok m.length (goCopy p m)⟩

/-- The outcome of `(*sR).Read(p)`. -/
def Read (priv peerPub p data : List Nat) (rerr : Option GoError) :
    ReadOutcome :=
  (ReadT priv peerPub p data rerr).outcome

end sR

/-- Trace of one `sW.Write` call: the frames emitted to the underlying
sink (in order), and the `(count, err)` pair returned to the caller. -/
structure WriteTrace where
  emitted : List (List Nat)
  count : Nat
  error : Option GoError
deriving DecidableEq

namespace sW

/-- The frame `out := box.Seal(nonce[:], p, nonce, peerPub, priv)`:
the nonce followed by the ciphertext. -/
def frame (priv peerPub nonce p : List Nat) : List Nat :=
  nonce ++ box.Seal p nonce peerPub priv

/-- Model of `(*sW).Write(p)` from `main.go`.  `nonceRes` is the outcome
of `genNonce()`; `sink` maps the bytes handed to the single underlying
`sw.w.Write(out)` to the `(n, err)` pair it returns, which `Write`
propagates unchanged. -/
def WriteT (priv peerPub : List Nat) (sink : List Nat → Nat × Option GoError)
    (nonceRes : Except GoError (List Nat)) (p : List Nat) : WriteTrace :=
  match nonceRes with
  | .error e => ⟨[], 0, some e⟩
  | .ok nonce =>
      let out := frame priv peerPub nonce p
      ⟨[out], (sink out).1, (sink out).2⟩

end sW

theorem take_append_left (l z : List Nat) (n : Nat) (h : n ≤ l.length) :
    (l ++ z).take n = l.take n := by
  conv_lhs => rw [← List.take_append_drop n l, List.append_assoc]
  rw [List.take_left' (by simp; omega)]

theorem drop_append_left (l z : List Nat) (n : Nat) (h : n ≤ l.length) :
    (l ++ z).drop n = l.drop n ++ z := by
  conv_lhs => rw [← List.take_append_drop n l, List.append_assoc]
  rw [List.drop_left' (by simp; omega)]

/-- The key material of an established secure session: the local private
key and the peer public key handed to `NewSecureReader`/`NewSecureWriter`. -/
structure Session where
  priv : List Nat
  peerPub : List Nat
deriving DecidableEq

/-- The 32-byte key buffer `peerPub` after `conn.Read(peerPub[:])`
delivered `data`: the delivered bytes over the zero-initialised array. -/
def keyBuf (data : List Nat) : List Nat :=
  data.take KeySize ++ List.replicate (KeySize - data.length) 0

/-- Model of `Dial` from `main.go` (transport setup aside, the handshake
as initiator).  `keyRes` is the outcome of `box.GenerateKey` as a
`(pub, priv)` pair, `connErr` of `net.Dial`, `writeRes` the `(n, err)`
returned by `conn.Write(pub[:])`, `readRes` the bytes delivered by
`conn.Read(peerPub[:])` together with its error.  Returns the session the
secure reader/writer pair is built from, or the error `Dial` returns. -/
def Dial (keyRes : Except GoError (List Nat × List Nat))
    (connErr : Option GoError) (writeRes : Nat × Option GoError)
    (readRes : List Nat × Option GoError) : Except GoError Session :=
  match keyRes with
  | .error e => .error e
  | .ok (_, priv) =>
    match connErr with
    | some e => .error e
    | none =>
      match writeRes.2 with
      | some e => .error e
      | none =>
        if writeRes.1 ≠ KeySize then .error (.other "partial write")
        else match readRes.2 with
        | some e => .error e
        | none =>
          if readRes.1.length ≠ KeySize then .error (.other "partial read")
          else .ok ⟨priv, keyBuf readRes.1⟩

/-- Terminal state of one `Serve` call: normal return, error return, or a
Go runtime panic inside the call. -/
inductive ServeOutcome where
  | done : ServeOutcome
  | fail : GoError → ServeOutcome
  | crash : String → ServeOutcome
deriving DecidableEq

/-- Trace of one `Serve` call: the session built after the handshake (if
reached), the plaintext handed to the secure writer (if reached), and the
terminal state. -/
structure ServeTrace where
  session : Option Session
  echoed : Option (List Nat)
  outcome : ServeOutcome
deriving DecidableEq

/-- Constant `bufSize := 1 << 15` from `Serve`. -/
def bufSize : Nat := 32768

/-- Model of `Serve` from `main.go`.  In source order: `acceptErr` is the
outcome of `l.Accept()`, `hsRead` the bytes and error of
`conn.Read(peerPub[:])`, `keyRes` the outcome of `box.GenerateKey`,
`hsWrite` the `(n, err)` of `conn.Write(pub[:])`, `msgRead` the bytes and
error the underlying read inside `r.Read(buf)` delivers, `nonceRes` the
`genNonce()` outcome for the echo write and `sink` the underlying
`conn.Write` behaviour for it. -/
def Serve (acceptErr : Option GoError) (hsRead : List Nat × Option GoError)
    (keyRes : Except GoError (List Nat × List Nat))
    (hsWrite : Nat × Option GoError) (msgRead : List Nat × Option GoError)
    (nonceRes : Except GoError (List Nat))
    (sink : List Nat → Nat × Option GoError) : ServeTrace :=
  match acceptErr with
  | some e => ⟨none, none, .fail e⟩
  | none =>
    match hsRead.2 with
    | some e => ⟨none, none, .fail e⟩
    | none =>
      if hsRead.1.length ≠ KeySize then
        ⟨none, none, .fail (.other "illegal key size")⟩
      else match keyRes with
      | .error e => ⟨none, none, .fail e⟩
      | .ok (_, priv) =>
        match hsWrite.2 with
        | some e => ⟨none, none, .fail e⟩
        | none =>
          if hsWrite.1 ≠ KeySize then
            ⟨none, none, .fail (.other "partial pub key write")⟩
          else
            let s : Session := ⟨priv, keyBuf hsRead.1⟩
            let buf := List.replicate bufSize 0
            match sR.Read s.priv s.peerPub buf msgRead.1 msgRead.2 with
            | .crash msg => ⟨some s, none, .crash msg⟩
            | .fail e _ => ⟨some s, none, .fail e⟩
            | .ok n buf2 =>
              if bufSize < n then
                ⟨some s, none, .crash "slice bounds out of range"⟩
              else
                let plain := buf2.take n
                let wt := sW.WriteT s.priv s.peerPub sink nonceRes plain
                match wt.error with
                | some e => ⟨some s, some plain, .fail e⟩
                | none => ⟨some s, some plain, .done⟩

/-! ## Shared lemmas about the reader -/

/-- When the underlying read reports no error (or `io.EOF`) and delivered
at least `NonceSize` bytes, `sR.Read` parses the delivered bytes into
nonce and ciphertext and its outcome is decided by `box.Open`. -/
theorem ReadT_eq (priv peerPub p data : List Nat) (rerr : Option GoError)
    (hre : rerr = none ∨ rerr = some GoError.eof)
    (hn : NonceSize ≤ data.length) :
    sR.ReadT priv peerPub p data rerr =
      ⟨sR.stagingSize p, data.take NonceSize, data.drop NonceSize,
        match box.Open (data.drop NonceSize) (data.take NonceSize)
            peerPub priv with
        | none => .fail (GoError.other "failed decrypting message") p
        | some m => .ok m.length (goCopy p m)⟩ := by
  unfold sR.ReadT
  have h1 : ¬(rerr ≠ none ∧ rerr ≠ some GoError.eof) := by
    rcases hre with h | h <;> simp [h]
  have h2 : ¬(data.length < NonceSize) := by omega
  have htk : (data ++ List.replicate (sR.stagingSize p - data.length) 0).take
      NonceSize = data.take NonceSize := take_append_left _ _ _ hn
  have hdr : ((data ++ List.replicate (sR.stagingSize p - data.length)
        0).drop NonceSize).take (data.length - NonceSize) =
      data.drop NonceSize := by
    rw [drop_append_left _ _ _ hn,
      take_append_left _ _ _ (by simp)]
    exact List.take_of_length_le (by simp)
  simp only [h1, h2, if_false, htk, hdr]
  cases box.Open (data.drop NonceSize) (data.take NonceSize) peerPub priv <;>
    rfl

/-- A frame produced by the secure writer under key pair A, read by the
secure reader under the matching key pair B, decrypts to the original
plaintext: the outcome is `ok` with the plaintext's length and the
plaintext copied into the caller's buffer. -/
theorem read_frame_ok (privA pubA privB pubB nonce m p : List Nat)
    (hA : box.Matches privA pubA) (hB : box.Matches privB pubB)
    (hnonce : nonce.length = NonceSize) :
    sR.Read privB pubA p (sW.frame privA pubB nonce m) none =
      .ok m.length (goCopy p m) := by
  unfold sR.Read
  have hlen : NonceSize ≤ (sW.frame privA pubB nonce m).length := by
    simp [sW.frame, box.seal_length]
    omega
  rw [ReadT_eq _ _ _ _ _ (Or.inl rfl) hlen]
  have htk : (sW.frame privA pubB nonce m).take NonceSize = nonce := by
    unfold sW.frame
    exact List.take_left' hnonce
  have hdr : (sW.frame privA pubB nonce m).drop NonceSize =
      box.Seal m nonce pubB privA := by
    unfold sW.frame
    exact List.drop_left' hnonce
  rw [htk, hdr, box.Open_Seal hA hB]

/-! ## The claims -/

/-- C1: for every byte sequence `m` whose length is within the caller
buffer's capacity, and a matching key pair (writer built from
`(privA, pubB)`, reader from `(privB, pubA)`), a `SecureReader.Read`
applied to the frame produced by `SecureWriter.Write` of `m` yields
exactly `m`, with the returned byte count equal to `m`'s length. -/
theorem read_write_roundtrip (privA pubA privB pubB nonce m p : List Nat)
    (hA : box.Matches privA pubA) (hB : box.Matches privB pubB)
    (hnonce : nonce.length = NonceSize) (hm : m.length ≤ p.length) :
    sR.Read privB pubA p (sW.frame privA pubB nonce m) none =
      .ok m.length (goCopy p m) ∧ (goCopy p m).take m.length = m :=
  ⟨read_frame_ok privA pubA privB pubB nonce m p hA hB hnonce,
    goCopy_take hm⟩

theorem read_write_roundtrip_witness :
    sR.Read (List.replicate 32 2) (List.replicate 32 1) [0, 0, 0, 0, 0]
        (sW.frame (List.replicate 32 1) (List.replicate 32 2)
          (List.replicate 24 5) [9, 8, 7]) none =
      .ok 3 (goCopy [0, 0, 0, 0, 0] [9, 8, 7]) ∧
      (goCopy [0, 0, 0, 0, 0] [9, 8, 7]).take 3 = [9, 8, 7] :=
  read_write_roundtrip (List.replicate 32 1) (List.replicate 32 1)
    (List.replicate 32 2) (List.replicate 32 2) (List.replicate 24 5)
    [9, 8, 7] [0, 0, 0, 0, 0] (by decide) (by decide) (by decide)
    (by decide)

/-- C2 (code-bug evidence): when the underlying read reports end-of-stream
with zero bytes read (`(0, io.EOF)`), `sR.Read` does not report the
end-of-stream condition to the caller: the `io.EOF` exemption lets control
reach the slice expression `bs[NonceSize:0]`, a runtime panic.  The spec's
stated behaviour (EOF reported distinctly, not as an authentication
failure) never happens. -/
theorem read_eof_zero_crash (priv peerPub p : List Nat) :
    sR.Read priv peerPub p [] (some GoError.eof) =
      .crash "slice bounds out of range" := by
  unfold sR.Read sR.ReadT
  simp [NonceSize]

/-- C3: whenever authenticated decryption fails to verify, `sR.Read`
returns the `failed decrypting message` error, reports zero bytes read,
and leaves the caller's buffer unchanged. -/
theorem read_auth_failure (priv peerPub p data : List Nat)
    (rerr : Option GoError)
    (hre : rerr = none ∨ rerr = some GoError.eof)
    (hn : NonceSize ≤ data.length)
    (hopen : box.Open (data.drop NonceSize) (data.take NonceSize)
      peerPub priv = none) :
    sR.Read priv peerPub p data rerr =
      .fail (GoError.other "failed decrypting message") p ∧
    (sR.Read priv peerPub p data rerr).count = 0 ∧
    (sR.Read priv peerPub p data rerr).buf = p := by
  have h1 : sR.Read priv peerPub p data rerr =
      .fail (GoError.other "failed decrypting message") p := by
    unfold sR.Read
    rw [ReadT_eq priv peerPub p data rerr hre hn, hopen]
  exact ⟨h1, by rw [h1]; rfl, by rw [h1]; rfl⟩

theorem read_auth_failure_witness :
    (sR.Read (List.replicate 32 2) (List.replicate 32 1) [0, 0, 0, 0, 0]
        (List.replicate 40 0) none =
      .fail (GoError.other "failed decrypting message") [0, 0, 0, 0, 0]) ∧
    (sR.Read (List.replicate 32 2) (List.replicate 32 1) [0, 0, 0, 0, 0]
        (List.replicate 40 0) none).count = 0 ∧
    (sR.Read (List.replicate 32 2) (List.replicate 32 1) [0, 0, 0, 0, 0]
        (List.replicate 40 0) none).buf = [0, 0, 0, 0, 0] :=
  read_auth_failure (List.replicate 32 2) (List.replicate 32 1)
    [0, 0, 0, 0, 0] (List.replicate 40 0) none (Or.inl rfl) (by decide)
    (by decide)

/-- C4: a successful `sW.Write` of plaintext `p` emits exactly one frame
to the underlying sink, consisting of the freshly generated 24-byte nonce
followed by the ciphertext, with total length
`p.length + NonceSize + box.Overhead`. -/
theorem write_frame_structure (priv peerPub nonce p : List Nat)
    (sink : List Nat → Nat × Option GoError)
    (hnonce : nonce.length = NonceSize) :
    (sW.WriteT priv peerPub sink (.ok nonce) p).emitted =
      [nonce ++ box.Seal p nonce peerPub priv] ∧
    (sW.frame priv peerPub nonce p).length =
      p.length + NonceSize + box.Overhead := by
  constructor
  · rfl
  · simp [sW.frame, box.seal_length, hnonce]
    omega

theorem write_frame_structure_witness :
    (sW.WriteT (List.replicate 32 1) (List.replicate 32 2)
        (fun out => (out.length, none)) (.ok (List.replicate 24 5))
        [9, 8, 7]).emitted =
      [List.replicate 24 5 ++
        box.Seal [9, 8, 7] (List.replicate 24 5) (List.replicate 32 2)
          (List.replicate 32 1)] ∧
    (sW.frame (List.replicate 32 1) (List.replicate 32 2)
        (List.replicate 24 5) [9, 8, 7]).length = 3 + NonceSize +
      box.Overhead :=
  write_frame_structure (List.replicate 32 1) (List.replicate 32 2)
    (List.replicate 24 5) [9, 8, 7] (fun out => (out.length, none))
    (by decide)

/-- C6 counterexample: the underlying write accepts only 10 of the 43
frame bytes and reports no error; `sW.Write` then returns `(10, nil)` —
no failure of any kind — because it propagates the sink's result without a
short-write check of its own. -/
theorem write_short_accepted_cex :
    (sW.WriteT (List.replicate 32 1) (List.replicate 32 2)
        (fun _ => (10, none)) (.ok (List.replicate 24 5))
        [9, 8, 7]).error = none ∧
    (sW.WriteT (List.replicate 32 1) (List.replicate 32 2)
        (fun _ => (10, none)) (.ok (List.replicate 24 5))
        [9, 8, 7]).count = 10 ∧
    (sW.frame (List.replicate 32 1) (List.replicate 32 2)
        (List.replicate 24 5) [9, 8, 7]).length = 43 := by
  refine ⟨rfl, rfl, ?_⟩
  decide

/-- C6 (amended): `sW.Write` propagates the underlying write's `(n, err)`
result to the caller unchanged, issuing exactly one underlying write with
no retry; whenever the underlying write reports an error — which under the
`io.Writer` contract includes every short write — that error is returned.
`Write` performs no short-write check of its own. -/
theorem write_error_propagated (priv peerPub nonce p : List Nat)
    (sink : List Nat → Nat × Option GoError) (k : Nat) (e : GoError)
    (h : sink (sW.frame priv peerPub nonce p) = (k, some e)) :
    (sW.WriteT priv peerPub sink (.ok nonce) p).error = some e ∧
    (sW.WriteT priv peerPub sink (.ok nonce) p).count = k ∧
    (sW.WriteT priv peerPub sink (.ok nonce) p).emitted.length = 1 := by
  unfold sW.WriteT
  simp [h]

theorem write_error_propagated_witness :
    (sW.WriteT (List.replicate 32 1) (List.replicate 32 2)
        (fun _ => (0, some (GoError.other "broken pipe")))
        (.ok (List.replicate 24 5)) [9, 8, 7]).error =
      some (GoError.other "broken pipe") ∧
    (sW.WriteT (List.replicate 32 1) (List.replicate 32 2)
        (fun _ => (0, some (GoError.other "broken pipe")))
        (.ok (List.replicate 24 5)) [9, 8, 7]).count = 0 ∧
    (sW.WriteT (List.replicate 32 1) (List.replicate 32 2)
        (fun _ => (0, some (GoError.other "broken pipe")))
        (.ok (List.replicate 24 5)) [9, 8, 7]).emitted.length = 1 :=
  write_error_propagated (List.replicate 32 1) (List.replicate 32 2)
    (List.replicate 24 5) [9, 8, 7]
    (fun _ => (0, some (GoError.other "broken pipe"))) 0
    (GoError.other "broken pipe") rfl

/-- C9: on success, `sW.Write` returns the byte count the underlying sink
reported for the whole frame; when the sink accepts the full frame that
count is `p.length + NonceSize + box.Overhead`, not the plaintext
length. -/
theorem write_returns_sink_count (priv peerPub nonce p : List Nat)
    (sink : List Nat → Nat × Option GoError) (k : Nat)
    (hnonce : nonce.length = NonceSize)
    (h : sink (sW.frame priv peerPub nonce p) = (k, none)) :
    (sW.WriteT priv peerPub sink (.ok nonce) p).count = k ∧
    (sW.WriteT priv peerPub sink (.ok nonce) p).error = none ∧
    (k = (sW.frame priv peerPub nonce p).length →
      k = p.length + NonceSize + box.Overhead) := by
  refine ⟨?_, ?_, ?_⟩
  · unfold sW.WriteT; simp [h]
  · unfold sW.WriteT; simp [h]
  · intro hk
    rw [hk]
    simp [sW.frame, box.seal_length, hnonce]
    omega

theorem write_returns_sink_count_witness :
    (sW.WriteT (List.replicate 32 1) (List.replicate 32 2)
        (fun out => (out.length, none)) (.ok (List.replicate 24 5))
        [9, 8, 7]).count = 43 ∧
    (sW.WriteT (List.replicate 32 1) (List.replicate 32 2)
        (fun out => (out.length, none)) (.ok (List.replicate 24 5))
        [9, 8, 7]).error = none ∧
    (43 = (sW.frame (List.replicate 32 1) (List.replicate 32 2)
        (List.replicate 24 5) [9, 8, 7]).length →
      43 = 3 + NonceSize + box.Overhead) :=
  write_returns_sink_count (List.replicate 32 1) (List.replicate 32 2)
    (List.replicate 24 5) [9, 8, 7] (fun out => (out.length, none)) 43
    (by decide) (by decide)

/-- C5: in both handshake roles, a handshake read or write that transfers
fewer than `KeySize = 32` bytes (for example 16) makes the handshake
return an error (`partial write` / `partial read` in `Dial`, `illegal key
size` / `partial pub key write` in `Serve`) and no session is
constructed. -/
theorem handshake_short_rejected (pub priv data ok32 : List Nat) (k : Nat)
    (readRes : List Nat × Option GoError)
    (msgRead : List Nat × Option GoError)
    (nonceRes : Except GoError (List Nat))
    (sink : List Nat → Nat × Option GoError)
    (hk : k < KeySize) (hd : data.length < KeySize)
    (h32 : ok32.length = KeySize) :
    Dial (.ok (pub, priv)) none (k, none) readRes =
      .error (.other "partial write") ∧
    Dial (.ok (pub, priv)) none (KeySize, none) (data, none) =
      .error (.other "partial read") ∧
    (Serve none (data, none) (.ok (pub, priv)) (KeySize, none) msgRead
      nonceRes sink).outcome = .fail (.other "illegal key size") ∧
    (Serve none (data, none) (.ok (pub, priv)) (KeySize, none) msgRead
      nonceRes sink).session = none ∧
    (Serve none (ok32, none) (.ok (pub, priv)) (k, none) msgRead
      nonceRes sink).outcome = .fail (.other "partial pub key write") ∧
    (Serve none (ok32, none) (.ok (pub, priv)) (k, none) msgRead
      nonceRes sink).session = none := by
  have hk' : k ≠ KeySize := Nat.ne_of_lt hk
  have hd' : data.length ≠ KeySize := Nat.ne_of_lt hd
  refine ⟨?_, ?_, ?_, ?_, ?_, ?_⟩ <;>
    simp [Dial, Serve, hk', hd', h32]

theorem handshake_short_rejected_witness :
    Dial (.ok (List.replicate 32 3, List.replicate 32 1)) none (16, none)
        (List.replicate 32 9, none) = .error (.other "partial write") ∧
    Dial (.ok (List.replicate 32 3, List.replicate 32 1)) none
        (KeySize, none) (List.replicate 16 9, none) =
      .error (.other "partial read") ∧
    (Serve none (List.replicate 16 9, none)
        (.ok (List.replicate 32 3, List.replicate 32 1)) (KeySize, none)
        ([], none) (.ok (List.replicate 24 5))
        (fun out => (out.length, none))).outcome =
      .fail (.other "illegal key size") ∧
    (Serve none (List.replicate 16 9, none)
        (.ok (List.replicate 32 3, List.replicate 32 1)) (KeySize, none)
        ([], none) (.ok (List.replicate 24 5))
        (fun out => (out.length, none))).session = none ∧
    (Serve none (List.replicate 32 9, none)
        (.ok (List.replicate 32 3, List.replicate 32 1)) (16, none)
        ([], none) (.ok (List.replicate 24 5))
        (fun out => (out.length, none))).outcome =
      .fail (.other "partial pub key write") ∧
    (Serve none (List.replicate 32 9, none)
        (.ok (List.replicate 32 3, List.replicate 32 1)) (16, none)
        ([], none) (.ok (List.replicate 24 5))
        (fun out => (out.length, none))).session = none :=
  handshake_short_rejected (List.replicate 32 3) (List.replicate 32 1)
    (List.replicate 16 9) (List.replicate 32 9) 16
    (List.replicate 32 9, none) ([], none) (.ok (List.replicate 24 5))
    (fun out => (out.length, none)) (by decide) (by decide) (by decide)

/-- C7: a call to `sR.Read` with a caller buffer of capacity `n` stages
its single underlying read into a buffer of exactly
`n + NonceSize + box.Overhead` bytes (so it requests at most that many),
treats the first 24 delivered bytes as the nonce and the remaining
delivered bytes as the ciphertext. -/
theorem read_single_request_parse (priv peerPub p data : List Nat)
    (rerr : Option GoError)
    (hre : rerr = none ∨ rerr = some GoError.eof)
    (hn : NonceSize ≤ data.length) :
    (sR.ReadT priv peerPub p data rerr).requested =
      p.length + NonceSize + box.Overhead ∧
    (sR.ReadT priv peerPub p data rerr).nonce = data.take NonceSize ∧
    (sR.ReadT priv peerPub p data rerr).cipher = data.drop NonceSize := by
  rw [ReadT_eq priv peerPub p data rerr hre hn]
  cases box.Open (data.drop NonceSize) (data.take NonceSize) peerPub priv
    <;> exact ⟨rfl, rfl, rfl⟩

theorem read_single_request_parse_witness :
    (sR.ReadT (List.replicate 32 2) (List.replicate 32 1) [0, 0, 0, 0, 0]
        (List.replicate 40 0) none).requested =
      5 + NonceSize + box.Overhead ∧
    (sR.ReadT (List.replicate 32 2) (List.replicate 32 1) [0, 0, 0, 0, 0]
        (List.replicate 40 0) none).nonce =
      (List.replicate 40 0).take NonceSize ∧
    (sR.ReadT (List.replicate 32 2) (List.replicate 32 1) [0, 0, 0, 0, 0]
        (List.replicate 40 0) none).cipher =
      (List.replicate 40 0).drop NonceSize :=
  read_single_request_parse (List.replicate 32 2) (List.replicate 32 1)
    [0, 0, 0, 0, 0] (List.replicate 40 0) none (Or.inl rfl) (by decide)

/-- C10: `sR.Read` never reports more bytes than the caller's buffer
holds: as long as the underlying read delivers no more than the staging
buffer's `p.length + NonceSize + box.Overhead` bytes, the reported count
is at most `p.length`. -/
theorem read_count_le_capacity (priv peerPub p data : List Nat)
    (rerr : Option GoError) (hdata : data.length ≤ sR.stagingSize p) :
    (sR.Read priv peerPub p data rerr).count ≤ p.length := by
  have hcore : ∀ rerr', rerr' = none ∨ rerr' = some GoError.eof →
      NonceSize ≤ data.length →
      (sR.Read priv peerPub p data rerr').count ≤ p.length := by
    intro rerr' hre h24
    unfold sR.Read
    rw [ReadT_eq priv peerPub p data rerr' hre h24]
    cases hO : box.Open (data.drop NonceSize) (data.take NonceSize)
        peerPub priv with
    | none => exact Nat.zero_le _
    | some m =>
      have hl := box.Open_length hO
      have hd2 : (data.drop NonceSize).length = data.length - NonceSize :=
        by simp
      rw [hd2] at hl
      simp only [ReadOutcome.count]
      unfold sR.stagingSize at hdata
      unfold NonceSize at h24 hl hdata
      unfold box.Overhead at hl hdata
      omega
  have hcrash : rerr = none ∨ rerr = some GoError.eof →
      data.length < NonceSize →
      (sR.Read priv peerPub p data rerr).count = 0 := by
    intro hre hlt
    unfold sR.Read sR.ReadT
    rw [if_neg (by rcases hre with h | h <;> simp [h])]
    rw [if_pos hlt]
    rfl
  rcases rerr with _ | e
  · by_cases h24 : NonceSize ≤ data.length
    · exact hcore none (Or.inl rfl) h24
    · rw [hcrash (Or.inl rfl) (by omega)]
      exact Nat.zero_le _
  · cases e with
    | eof =>
      by_cases h24 : NonceSize ≤ data.length
      · exact hcore (some GoError.eof) (Or.inr rfl) h24
      · rw [hcrash (Or.inr rfl) (by omega)]
        exact Nat.zero_le _
    | other s =>
      unfold sR.Read sR.ReadT
      rw [if_pos (by simp)]
      exact Nat.zero_le _

theorem read_count_le_capacity_witness :
    (sR.Read (List.replicate 32 2) (List.replicate 32 1) [0, 0, 0, 0, 0]
        (sW.frame (List.replicate 32 1) (List.replicate 32 2)
          (List.replicate 24 5) [9, 8, 7]) none).count ≤ 5 :=
  read_count_le_capacity (List.replicate 32 2) (List.replicate 32 1)
    [0, 0, 0, 0, 0]
    (sW.frame (List.replicate 32 1) (List.replicate 32 2)
      (List.replicate 24 5) [9, 8, 7]) none (by decide)

/-- A handshake read `conn.Read(peerPub[:])` that delivered exactly `KeySize` bytes leaves
the key buffer holding exactly those bytes. -/
theorem keyBuf_of_length {data : List Nat} (h : data.length = KeySize) :
    keyBuf data = data := by
  simp [keyBuf, h, List.take_of_length_le (le_of_eq h)]

/-- C8: `Serve` accepts one connection, completes the responder handshake,
performs one secure read into the fixed 32768-byte buffer and one secure
write, and the plaintext handed to that write is exactly the decrypted
message the read returned (same bytes, same length); with an error-free
sink the call completes.  Any error at any step aborts the sequence and is
returned to the caller: an error at `Accept`, at the handshake read, at
key generation, at the handshake write, at the secure read (whatever
error it reports — transport or authentication), at nonce generation for
the echo write, or at the echo write itself, each makes `Serve` return
that error, with no session or echo write from the steps not reached. -/
theorem serve_echoes_read_bytes (pub priv pubS privC nonce nonce2 m
      hsData : List Nat) (nonceRes nonceRes2 : Except GoError (List Nat))
    (sink : List Nat → Nat × Option GoError) (e : GoError)
    (hsRead2 : List Nat × Option GoError)
    (keyRes2 : Except GoError (List Nat × List Nat))
    (hsWrite2 : Nat × Option GoError)
    (msgRead2 : List Nat × Option GoError)
    (h32 : hsData.length = KeySize) (hC : box.Matches privC hsData)
    (hS : box.Matches priv pubS) (hnonce : nonce.length = NonceSize)
    (hm : m.length ≤ bufSize) :
    (Serve none (hsData, none) (.ok (pub, priv)) (KeySize, none)
        (sW.frame privC pubS nonce m, none) nonceRes sink).echoed =
      some m ∧
    (Serve none (hsData, none) (.ok (pub, priv)) (KeySize, none)
        (sW.frame privC pubS nonce m, none) nonceRes sink).session =
      some ⟨priv, hsData⟩ ∧
    ((∀ f, (sink f).2 = none) →
      (Serve none (hsData, none) (.ok (pub, priv)) (KeySize, none)
        (sW.frame privC pubS nonce m, none) (.ok nonce) sink).outcome =
      .done) ∧
    (Serve (some e) hsRead2 keyRes2 hsWrite2 msgRead2 nonceRes2
      sink).outcome = .fail e ∧
    (Serve (some e) hsRead2 keyRes2 hsWrite2 msgRead2 nonceRes2
      sink).echoed = none ∧
    (Serve (some e) hsRead2 keyRes2 hsWrite2 msgRead2 nonceRes2
      sink).session = none ∧
    (Serve none (hsRead2.1, some e) keyRes2 hsWrite2 msgRead2 nonceRes2
      sink).outcome = .fail e ∧
    (Serve none (hsRead2.1, some e) keyRes2 hsWrite2 msgRead2 nonceRes2
      sink).echoed = none ∧
    (Serve none (hsRead2.1, some e) keyRes2 hsWrite2 msgRead2 nonceRes2
      sink).session = none ∧
    (Serve none (hsData, none) (.error e) hsWrite2 msgRead2 nonceRes2
      sink).outcome = .fail e ∧
    (Serve none (hsData, none) (.error e) hsWrite2 msgRead2 nonceRes2
      sink).echoed = none ∧
    (Serve none (hsData, none) (.ok (pub, priv)) (hsWrite2.1, some e)
      msgRead2 nonceRes2 sink).outcome = .fail e ∧
    (Serve none (hsData, none) (.ok (pub, priv)) (hsWrite2.1, some e)
      msgRead2 nonceRes2 sink).echoed = none ∧
    (∀ e' buf', sR.Read priv (keyBuf hsData) (List.replicate bufSize 0)
        msgRead2.1 msgRead2.2 = .fail e' buf' →
      (Serve none (hsData, none) (.ok (pub, priv)) (KeySize, none)
        msgRead2 nonceRes2 sink).outcome = .fail e' ∧
      (Serve none (hsData, none) (.ok (pub, priv)) (KeySize, none)
        msgRead2 nonceRes2 sink).echoed = none) ∧
    (Serve none (hsData, none) (.ok (pub, priv)) (KeySize, none)
        (sW.frame privC pubS nonce m, none) (.error e) sink).outcome =
      .fail e ∧
    ((sink (sW.frame priv hsData nonce2 m)).2 = some e →
      (Serve none (hsData, none) (.ok (pub, priv)) (KeySize, none)
        (sW.frame privC pubS nonce m, none) (.ok nonce2) sink).outcome =
      .fail e) := by
  have hkb : keyBuf hsData = hsData := keyBuf_of_length h32
  have hread : sR.Read priv (keyBuf hsData) (List.replicate bufSize 0)
      (sW.frame privC pubS nonce m) none =
      .ok m.length (goCopy (List.replicate bufSize 0) m) := by
    rw [hkb]
    exact read_frame_ok privC hsData priv pubS nonce m _ hC hS hnonce
  have hnlt : ¬ (bufSize < m.length) := Nat.not_lt.mpr hm
  have hplain : (goCopy (List.replicate bufSize 0) m).take m.length = m :=
    goCopy_take (by simp [hm])
  refine ⟨?_, ?_, ?_, rfl, rfl, rfl, rfl, rfl, rfl, ?_, ?_, ?_, ?_, ?_,
    ?_, ?_⟩
  · simp only [Serve, h32]
    rw [if_neg (by simp [h32])]
    simp only [hread, hnlt, if_false, hplain]
    cases (sW.WriteT priv (keyBuf hsData) sink nonceRes m).error <;> rfl
  · simp only [Serve, h32]
    rw [if_neg (by simp [h32])]
    simp only [hread, hnlt, if_false, hplain]
    cases (sW.WriteT priv (keyBuf hsData) sink nonceRes m).error <;>
      simp [hkb]
  · intro hsink
    simp only [Serve, h32]
    rw [if_neg (by simp [h32])]
    simp only [hread, hnlt, if_false, hplain]
    simp [sW.WriteT, hsink]
  · simp only [Serve]
    rw [if_neg (by simp [h32])]
  · simp only [Serve]
    rw [if_neg (by simp [h32])]
  · simp only [Serve]
    rw [if_neg (by simp [h32])]
  · simp only [Serve]
    rw [if_neg (by simp [h32])]
  · intro e' buf' hfail
    refine ⟨?_, ?_⟩ <;>
      · simp only [Serve]
        rw [if_neg (by simp [h32])]
        simp [hfail]
  · simp only [Serve]
    rw [if_neg (by simp [h32])]
    simp only [hread, hnlt, if_false, hplain]
    simp [sW.WriteT]
  · intro hsink2
    simp only [Serve]
    rw [if_neg (by simp [h32])]
    simp only [hread, hnlt, if_false, hplain]
    simp [sW.WriteT, hkb, hsink2]

theorem serve_echoes_read_bytes_witness :
    (Serve none (List.replicate 32 1, none)
        (.ok (List.replicate 32 3, List.replicate 32 2)) (KeySize, none)
        (sW.frame (List.replicate 32 1) (List.replicate 32 2)
          (List.replicate 24 5) [9, 8, 7], none)
        (.ok (List.replicate 24 6)) (fun _ => (0, none))).echoed =
      some [9, 8, 7] :=
  (serve_echoes_read_bytes (List.replicate 32 3) (List.replicate 32 2)
    (List.replicate 32 2) (List.replicate 32 1) (List.replicate 24 5)
    (List.replicate 24 6) [9, 8, 7] (List.replicate 32 1)
    (.ok (List.replicate 24 6)) (.ok (List.replicate 24 7))
    (fun _ => (0, none)) (GoError.other "accept failed") ([4, 4], none)
    (.error (GoError.other "rng failed")) (7, none)
    ([], some GoError.eof) (by decide) (by decide) (by decide)
    (by decide) (by decide)).1
